import Mathlib

/-!
A shallow embedding of the record-store layer of the repository: the
class `DatabaseManager` in `src/main.py`, which owns a single SQLite
table `records (id INTEGER PRIMARY KEY AUTOINCREMENT, name TEXT NOT
NULL, add_date TIMESTAMP NOT NULL, remark TEXT)` together with the
unique index `idx_name_unique ON records (name COLLATE NOCASE)`.  The
table is modelled as a list of rows plus the AUTOINCREMENT counter, and
each method of `DatabaseManager` becomes a pure function on that state.
-/

namespace RecordStore

/-- SQLite NOCASE collation folding: ASCII upper-case letters fold to
lower case, every other character is left unchanged. -/
def nocase (c : Char) : Char :=
  if 'A' ≤ c ∧ c ≤ 'Z' then Char.ofNat (c.toNat + 32) else c

/-- Case-insensitive equality of names, as compared by the unique index
`idx_name_unique ON records (name COLLATE NOCASE)` and by
`WHERE name = ? COLLATE NOCASE`. -/
def nameEq (a b : String) : Bool :=
  a.data.map nocase == b.data.map nocase

/-- Python `str.strip()` on the underlying character list: drop
whitespace from both ends. -/
def stripChars (l : List Char) : List Char :=
  ((l.dropWhile Char.isWhitespace).reverse.dropWhile Char.isWhitespace).reverse

/-- Python `name.strip()`. -/
def strip (s : String) : String :=
  ⟨stripChars s.data⟩

/-- One row of the `records` table. -/
structure Record where
  id : Nat
  name : String
  add_date : String
  remark : Option String
  deriving DecidableEq

/-- The state owned by `DatabaseManager`: the rows of `records` plus the
AUTOINCREMENT counter (under AUTOINCREMENT, SQLite hands out ids larger
than any ever used, never reusing one). -/
structure DB where
  rows : List Record
  nextId : Nat
  deriving DecidableEq

/-- `create_table` on a fresh database file: the empty table. -/
def initDB : DB := ⟨[], 1⟩

/-- `DatabaseManager.find_duplicate`: `SELECT add_date, remark FROM
records WHERE name = ? COLLATE NOCASE LIMIT 1` on the stripped name. -/
def find_duplicate (db : DB) (name : String) : Option (String × Option String) :=
  (db.rows.find? (fun r => nameEq r.name (strip name))).map
    (fun r => (r.add_date, r.remark))

/-- `DatabaseManager.add_record`: `INSERT INTO records (name, add_date,
remark) VALUES (?, ?, ?)` on the stripped name; a NOCASE duplicate
raises `IntegrityError`, which the method answers with
`(False, find_duplicate(name))` and no change to the table. -/
def add_record (db : DB) (name add_date : String) (remark : Option String) :
    (Bool × Option (String × Option String)) × DB :=
  if db.rows.any (fun r => nameEq r.name (strip name)) then
    ((false, find_duplicate db name), db)
  else
    ((true, none),
      ⟨db.rows ++ [⟨db.nextId, strip name, add_date, remark⟩], db.nextId + 1⟩)

/-- Row order produced by `ORDER BY add_date DESC`: later date strings
first.  The dates use the fixed format `YYYY-MM-DD HH:MM:SS`, which
SQLite stores as TEXT and compares lexicographically. -/
def byDateDesc (a b : Record) : Prop := b.add_date ≤ a.add_date

instance : DecidableRel byDateDesc :=
  fun a b => inferInstanceAs (Decidable (b.add_date ≤ a.add_date))

instance : IsTotal Record byDateDesc :=
  ⟨fun a b => le_total b.add_date a.add_date⟩

instance : IsTrans Record byDateDesc :=
  ⟨fun _ _ _ hab hbc => le_trans hbc hab⟩

/-- `ORDER BY add_date DESC` as a deterministic sort of the rows. -/
def orderByDateDesc (l : List Record) : List Record :=
  l.insertionSort byDateDesc

/-- `DatabaseManager.get_all_records`. -/
def get_all_records (db : DB) : List Record :=
  orderByDateDesc db.rows

/-- SQLite `LIKE` pattern matching under NOCASE: a percent sign matches
any sequence of characters, an underscore matches exactly one character,
and any other pattern character matches one character up to ASCII case. -/
def likeMatch : List Char → List Char → Bool
  | [], s => s.isEmpty
  | p :: ps, s =>
    if p = '%' then s.tails.any (fun t => likeMatch ps t)
    else
      match s with
      | [] => false
      | c :: t =>
        if p = '_' then likeMatch ps t
        else nocase p == nocase c && likeMatch ps t

/-- `DatabaseManager.search_records`: `WHERE name LIKE ? COLLATE NOCASE
ORDER BY add_date DESC`, the bound parameter being `'%' + query + '%'`. -/
def search_records (db : DB) (q : String) : List Record :=
  orderByDateDesc
    (db.rows.filter (fun r => likeMatch ('%' :: (q.data ++ ['%'])) r.name.data))

/-- `DatabaseManager.delete_records`: an empty id list returns `False`
without touching the table; otherwise a single `DELETE FROM records
WHERE id IN (...)` statement removes every matching row (ids that match
nothing are simply ignored) and the method returns `True`. -/
def delete_records (db : DB) (ids : List Nat) : Bool × DB :=
  if ids.isEmpty then (false, db)
  else (true, { db with rows := db.rows.filter (fun r => !(ids.contains r.id)) })

/-- `DatabaseManager.get_record_by_id`. -/
def get_record_by_id (db : DB) (i : Nat) : Option Record :=
  db.rows.find? (fun r => r.id == i)

/-- `DatabaseManager.update_record`: `UPDATE records SET name = ?,
add_date = ?, remark = ? WHERE id = ?` with the stripped name.  The
statement raises `IntegrityError` — answered with `False` and no change
— exactly when a row with the given id is rewritten while a different
row already holds a NOCASE-equal name; otherwise it returns `True`, also
when no row has the id. -/
def update_record (db : DB) (i : Nat) (name add_date : String)
    (remark : Option String) : Bool × DB :=
  if (db.rows.any (fun r => r.id == i)) &&
      (db.rows.any (fun r => r.id != i && nameEq r.name (strip name))) then
    (false, db)
  else
    (true,
      ⟨db.rows.map (fun r => if r.id = i then ⟨r.id, strip name, add_date, remark⟩ else r),
        db.nextId⟩)

/-- The mutating operations a caller can issue against the store. -/
inductive Op where
  | add (name add_date : String) (remark : Option String)
  | upd (i : Nat) (name add_date : String) (remark : Option String)
  | del (ids : List Nat)

/-- State transition of one operation (the returned value is dropped). -/
def applyOp (db : DB) : Op → DB
  | .add n d r => (add_record db n d r).2
  | .upd i n d r => (update_record db i n d r).2
  | .del ids => (delete_records db ids).2

/-- Run a sequence of operations starting from the freshly created table. -/
def runOps (ops : List Op) : DB :=
  ops.foldl applyOp initDB

/-- No two rows hold NOCASE-equal names. -/
def NamesUnique (db : DB) : Prop :=
  db.rows.Pairwise (fun a b => ¬ nameEq a.name b.name)

/-- Primary-key discipline: row ids are pairwise distinct and below the
AUTOINCREMENT counter. -/
def IdsOk (db : DB) : Prop :=
  (db.rows.Pairwise (fun a b => a.id ≠ b.id)) ∧ ∀ r ∈ db.rows, r.id < db.nextId

instance (db : DB) : Decidable (NamesUnique db) := by
  unfold NamesUnique
  infer_instance

instance (db : DB) : Decidable (IdsOk db) := by
  unfold IdsOk
  infer_instance

/-- The store invariant maintained by every operation. -/
def Inv (db : DB) : Prop := IdsOk db ∧ NamesUnique db

instance (db : DB) : Decidable (Inv db) := by
  unfold Inv
  infer_instance

/-- Specification-side notion used by the search claims: `q` occurs in
`s` as a literal substring up to ASCII case. -/
def substrNocase (q s : String) : Prop :=
  (q.data.map nocase) <:+: (s.data.map nocase)

instance (q s : String) : Decidable (substrNocase q s) :=
  inferInstanceAs (Decidable ((q.data.map nocase) <:+: (s.data.map nocase)))

/-- Concrete store holding the single record `(1, "Alice", ..., NULL)`. -/
def dbAlice : DB :=
  (add_record initDB "Alice" "2024-01-01 10:00:00" none).2

/-- Concrete store holding `(1, "Alice", ...)` and `(2, "Bob", ...)`. -/
def dbTwo : DB :=
  (add_record dbAlice "Bob" "2024-01-02 10:00:00" none).2

/-- Concrete store holding the single record `(1, "ab", ..., NULL)`. -/
def dbAb : DB :=
  (add_record initDB "ab" "2024-01-01 10:00:00" none).2

/-- Concrete store holding the single record `(1, "abcdef", ..., NULL)`. -/
def dbAbcdef : DB :=
  (add_record initDB "abcdef" "2024-01-01 10:00:00" none).2

theorem nameEq_iff {a b : String} :
    nameEq a b = true ↔ a.data.map nocase = b.data.map nocase := by
  simp [nameEq]

theorem nameEq_symm {a b : String} (h : nameEq a b = true) : nameEq b a = true := by
  rw [nameEq_iff] at h ⊢
  exact h.symm

theorem nameEq_trans {a b c : String} (h1 : nameEq a b = true)
    (h2 : nameEq b c = true) : nameEq a c = true := by
  rw [nameEq_iff] at h1 h2 ⊢
  exact h1.trans h2

theorem find?_eq_some_of_unique {α : Type} {p : α → Bool} {l : List α} {x : α}
    (hx : x ∈ l) (hpx : p x = true) (huniq : ∀ y ∈ l, p y = true → y = x) :
    l.find? p = some x := by
  induction l with
  | nil => cases hx
  | cons a l ih =>
    by_cases hpa : p a = true
    · have hax : a = x := huniq a (List.mem_cons_self a l) hpa
      rw [List.find?_cons_of_pos _ hpa, hax]
    · rw [List.find?_cons_of_neg _ hpa]
      have hx' : x ∈ l := by
        rcases List.mem_cons.1 hx with h | h
        · exact absurd (h ▸ hpx) hpa
        · exact h
      exact ih hx' (fun y hy hpy => huniq y (List.mem_cons_of_mem _ hy) hpy)

theorem dup_unique {db : DB} (h : NamesUnique db) {x y : Record} {n : String}
    (hx : x ∈ db.rows) (hpx : nameEq x.name n = true)
    (hy : y ∈ db.rows) (hpy : nameEq y.name n = true) : y = x := by
  by_contra hne
  have hsym : Symmetric (fun a b : Record => ¬ nameEq a.name b.name = true) :=
    fun a b hab hba => hab (nameEq_symm hba)
  have hR := List.Pairwise.forall hsym h hy hx hne
  exact hR (nameEq_trans hpy (nameEq_symm hpx))

/-- C1: on a case-insensitive name collision, `add_record` returns failure
together with the conflicting record's `add_date` and `remark`, and the
store is unchanged. -/
theorem add_record_conflict_returns_detail (db : DB) (nm d : String)
    (rm : Option String) (x : Record) (hu : NamesUnique db) (hx : x ∈ db.rows)
    (hdup : nameEq x.name (strip nm) = true) :
    add_record db nm d rm = ((false, some (x.add_date, x.remark)), db) := by
  have hany : (db.rows.any (fun r => nameEq r.name (strip nm))) = true :=
    List.any_eq_true.2 ⟨x, hx, hdup⟩
  have hfind : db.rows.find? (fun r => nameEq r.name (strip nm)) = some x :=
    find?_eq_some_of_unique hx hdup (fun y hy hpy => dup_unique hu hx hdup hy hpy)
  simp [add_record, find_duplicate, hany, hfind]

/-- Instantiation of C1: `create(" ALICE ", ...)` against the store holding
`"Alice"` fails and hands back the stored record's date and remark. -/
theorem add_record_conflict_returns_detail_witness :
    add_record dbAlice " ALICE " "2024-01-02 11:00:00" (some "dup") =
      ((false, some ("2024-01-01 10:00:00", none)), dbAlice) :=
  add_record_conflict_returns_detail dbAlice " ALICE " "2024-01-02 11:00:00"
    (some "dup") ⟨1, "Alice", "2024-01-01 10:00:00", none⟩
    (by decide) (by decide) (by decide)

theorem inv_initDB : Inv initDB := by
  decide

theorem inv_add {db : DB} (h : Inv db) (n d : String) (rm : Option String) :
    Inv (add_record db n d rm).2 := by
  obtain ⟨⟨hids, hbound⟩, hnames⟩ := h
  by_cases hc : db.rows.any (fun x => nameEq x.name (strip n)) = true
  · simpa [add_record, hc] using ⟨⟨hids, hbound⟩, hnames⟩
  · have hc' : db.rows.any (fun x => nameEq x.name (strip n)) = false :=
      Bool.eq_false_iff.2 hc
    have hnone : ∀ x ∈ db.rows, ¬ nameEq x.name (strip n) = true := by
      intro x hx
      exact (List.any_eq_false.1 hc') x hx
    simp only [add_record, hc', Bool.false_eq_true, if_false]
    refine ⟨⟨?_, ?_⟩, ?_⟩
    · rw [List.pairwise_append]
      refine ⟨hids, List.pairwise_singleton _ _, ?_⟩
      intro a ha b hb
      rw [List.mem_singleton] at hb
      subst hb
      exact Nat.ne_of_lt (hbound a ha)
    · intro x hx
      rcases List.mem_append.1 hx with h1 | h1
      · exact Nat.lt_succ_of_lt (hbound x h1)
      · rw [List.mem_singleton] at h1
        subst h1
        exact Nat.lt_succ_self _
    · unfold NamesUnique
      rw [List.pairwise_append]
      refine ⟨hnames, List.pairwise_singleton _ _, ?_⟩
      intro a ha b hb
      rw [List.mem_singleton] at hb
      subst hb
      exact hnone a ha

theorem inv_del {db : DB} (h : Inv db) (ids : List Nat) :
    Inv (delete_records db ids).2 := by
  obtain ⟨⟨hids, hbound⟩, hnames⟩ := h
  by_cases he : ids.isEmpty = true
  · simpa [delete_records, he] using ⟨⟨hids, hbound⟩, hnames⟩
  · have he' : ids.isEmpty = false := Bool.eq_false_iff.2 he
    simp only [delete_records, he', Bool.false_eq_true, if_false]
    exact ⟨⟨hids.filter _, fun r hr => hbound r (List.mem_of_mem_filter hr)⟩,
      hnames.filter _⟩

theorem upd_names {rows : List Record} {i : Nat} {nm d : String} {rm : Option String}
    (hids : rows.Pairwise (fun a b => a.id ≠ b.id))
    (hnames : rows.Pairwise (fun a b => ¬ nameEq a.name b.name))
    (hB : ∀ r ∈ rows, r.id = i ∨ ¬ nameEq r.name (strip nm) = true) :
    (rows.map (fun r => if r.id = i then (⟨r.id, strip nm, d, rm⟩ : Record) else r)).Pairwise
      (fun a b => ¬ nameEq a.name b.name) := by
  rw [List.pairwise_map]
  refine List.Pairwise.imp_of_mem ?_ (hids.and hnames)
  intro a b ha hb hab
  obtain ⟨hid, hname⟩ := hab
  by_cases hai : a.id = i <;> by_cases hbi : b.id = i
  · exact absurd (hai.trans hbi.symm) hid
  · rcases hB b hb with h1 | h1
    · exact absurd h1 hbi
    · simp only [hai, if_true, hbi, if_false]
      intro hcontra
      exact h1 (nameEq_symm hcontra)
  · rcases hB a ha with h1 | h1
    · exact absurd h1 hai
    · simp only [hai, if_false, hbi, if_true]
      intro hcontra
      exact h1 hcontra
  · simp only [hai, hbi, if_false]
    exact hname

theorem inv_upd {db : DB} (h : Inv db) (i : Nat) (n d : String) (rm : Option String) :
    Inv (update_record db i n d rm).2 := by
  obtain ⟨⟨hids, hbound⟩, hnames⟩ := h
  by_cases hc : ((db.rows.any (fun r => r.id == i)) &&
      (db.rows.any (fun r => r.id != i && nameEq r.name (strip n)))) = true
  · simpa [update_record, hc] using ⟨⟨hids, hbound⟩, hnames⟩
  · have hc' := Bool.eq_false_iff.2 hc
    simp only [update_record, hc', Bool.false_eq_true, if_false]
    have hidpres : ∀ r : Record,
        (if r.id = i then (⟨r.id, strip n, d, rm⟩ : Record) else r).id = r.id := by
      intro r
      by_cases hri : r.id = i <;> simp [hri]
    have hIds : (db.rows.map
        (fun r => if r.id = i then (⟨r.id, strip n, d, rm⟩ : Record) else r)).Pairwise
          (fun a b => a.id ≠ b.id) := by
      rw [List.pairwise_map]
      refine hids.imp ?_
      intro a b hab
      simp only [hidpres]
      exact hab
    have hBound : ∀ r ∈ db.rows.map
        (fun r => if r.id = i then (⟨r.id, strip n, d, rm⟩ : Record) else r),
          r.id < db.nextId := by
      intro r hr
      rcases List.mem_map.1 hr with ⟨x, hx, hxr⟩
      rw [← hxr, hidpres]
      exact hbound x hx
    rcases Bool.and_eq_false_iff.1 hc' with hA | hB
    · have hnoi : ∀ r ∈ db.rows, r.id ≠ i := by
        intro r hr
        have := (List.any_eq_false.1 hA) r hr
        simpa using this
      have heach : ∀ r ∈ db.rows,
          (if r.id = i then (⟨r.id, strip n, d, rm⟩ : Record) else r) = id r :=
        fun r hr => if_neg (hnoi r hr)
      have hmap : db.rows.map
          (fun r => if r.id = i then (⟨r.id, strip n, d, rm⟩ : Record) else r) = db.rows := by
        rw [List.map_congr_left heach, List.map_id]
      rw [hmap]
      exact ⟨⟨hids, hbound⟩, hnames⟩
    · have hB' : ∀ r ∈ db.rows, r.id = i ∨ ¬ nameEq r.name (strip n) = true := by
        intro r hr
        have := (List.any_eq_false.1 hB) r hr
        rcases Bool.and_eq_false_iff.1 (Bool.eq_false_iff.2 this) with h1 | h1
        · left
          simpa using h1
        · right
          simp [h1]
      exact ⟨⟨hIds, hBound⟩, upd_names hids hnames hB'⟩

theorem inv_applyOp {db : DB} (h : Inv db) (op : Op) : Inv (applyOp db op) := by
  cases op with
  | add n d r => exact inv_add h n d r
  | upd i n d r => exact inv_upd h i n d r
  | del ids => exact inv_del h ids

theorem inv_foldl {db : DB} (h : Inv db) (ops : List Op) :
    Inv (ops.foldl applyOp db) := by
  induction ops generalizing db with
  | nil => exact h
  | cons op ops ih => exact ih (inv_applyOp h op)

/-- C2: in every store state reachable from the fresh table by any
sequence of create, update and delete operations, no two records have
case-insensitively equal names. -/
theorem reachable_names_unique (ops : List Op) : NamesUnique (runOps ops) :=
  (inv_foldl inv_initDB ops).2

/-- C3 counterexample: `add_record` does not hand the fresh id back to the
caller.  Two successful creations of the same name in different store
states produce different fresh ids (1 in the empty store, 2 after
"Alice" exists) yet identical return values `(True, None)`, so the value
returned by create cannot convey the new record's id. -/
theorem add_record_does_not_return_id :
    (add_record initDB "Bob" "2024-01-02 10:00:00" none).1 =
      (add_record dbAlice "Bob" "2024-01-02 10:00:00" none).1 ∧
    (add_record initDB "Bob" "2024-01-02 10:00:00" none).2.rows.map Record.id = [1] ∧
    (add_record dbAlice "Bob" "2024-01-02 10:00:00" none).2.rows.map Record.id = [1, 2] := by
  decide

/-- C3 (amended): a valid create succeeds returning only the success flag
`(True, None)`, and reading the newly created record by its id (the
store's fresh AUTOINCREMENT id, which create itself does not return)
yields the submitted name stripped of surrounding whitespace and the
`add_date` and `remark` exactly as submitted. -/
theorem add_record_then_get_by_id (db : DB) (nm d : String) (rm : Option String)
    (hinv : Inv db) (_hne : strip nm ≠ "")
    (hnocol : ∀ r ∈ db.rows, ¬ nameEq r.name (strip nm) = true) :
    (add_record db nm d rm).1 = (true, none) ∧
    get_record_by_id (add_record db nm d rm).2 db.nextId =
      some ⟨db.nextId, strip nm, d, rm⟩ := by
  have hc : db.rows.any (fun r => nameEq r.name (strip nm)) = false :=
    List.any_eq_false.2 hnocol
  constructor
  · simp [add_record, hc]
  · simp only [add_record, hc, Bool.false_eq_true, if_false]
    unfold get_record_by_id
    rw [List.find?_append]
    have h1 : db.rows.find? (fun r => r.id == db.nextId) = none := by
      rw [List.find?_eq_none]
      intro x hx
      simp only [beq_iff_eq]
      exact Nat.ne_of_lt (hinv.1.2 x hx)
    rw [h1]
    simp [List.find?]

/-- Instantiation of C3 (amended) on the empty store. -/
theorem add_record_then_get_by_id_witness :
    (add_record initDB " Bob " "2024-01-02 10:00:00" (some "note")).1 = (true, none) ∧
    get_record_by_id (add_record initDB " Bob " "2024-01-02 10:00:00" (some "note")).2
        initDB.nextId =
      some ⟨initDB.nextId, strip " Bob ", "2024-01-02 10:00:00", some "note"⟩ :=
  add_record_then_get_by_id initDB " Bob " "2024-01-02 10:00:00" (some "note")
    (by decide) (by decide) (by decide)

/-- C4: an update whose new name collides case-insensitively with a
different existing record fails and leaves the whole store unchanged. -/
theorem update_record_conflict_unchanged (db : DB) (i : Nat) (nm d : String)
    (rm : Option String) (x y : Record) (hx : x ∈ db.rows) (hxi : x.id = i)
    (hy : y ∈ db.rows) (hyi : y.id ≠ i) (hdup : nameEq y.name (strip nm) = true) :
    update_record db i nm d rm = (false, db) := by
  have h1 : db.rows.any (fun r => r.id == i) = true :=
    List.any_eq_true.2 ⟨x, hx, by simp [hxi]⟩
  have h2 : db.rows.any (fun r => r.id != i && nameEq r.name (strip nm)) = true :=
    List.any_eq_true.2 ⟨y, hy, by simp [hyi, hdup]⟩
  simp [update_record, h1, h2]

/-- Instantiation of C4: renaming "Bob" to "ALICE" while "Alice" exists
fails without touching the store. -/
theorem update_record_conflict_unchanged_witness :
    update_record dbTwo 2 "ALICE" "2024-01-03 10:00:00" none = (false, dbTwo) :=
  update_record_conflict_unchanged dbTwo 2 "ALICE" "2024-01-03 10:00:00" none
    ⟨2, "Bob", "2024-01-02 10:00:00", none⟩ ⟨1, "Alice", "2024-01-01 10:00:00", none⟩
    (by decide) (by decide) (by decide) (by decide) (by decide)

/-- C5: updating a record to its own name — any case variant of it —
succeeds; the self-collision is not a conflict. -/
theorem update_record_own_name_succeeds (db : DB) (i : Nat) (nm d : String)
    (rm : Option String) (x : Record) (hinv : Inv db) (hx : x ∈ db.rows)
    (hxi : x.id = i) (hself : nameEq x.name (strip nm) = true) :
    (update_record db i nm d rm).1 = true := by
  have h2 : db.rows.any (fun r => r.id != i && nameEq r.name (strip nm)) = false := by
    rw [List.any_eq_false]
    intro r hr
    simp only [Bool.and_eq_true, bne_iff_ne, not_and]
    intro hri hcon
    exact hri ((dup_unique hinv.2 hx hself hr hcon) ▸ hxi)
  simp [update_record, h2]

/-- Instantiation of C5: renaming "Bob" to "BOB" succeeds. -/
theorem update_record_own_name_succeeds_witness :
    (update_record dbTwo 2 "BOB" "2024-01-05 10:00:00" (some "x")).1 = true :=
  update_record_own_name_succeeds dbTwo 2 "BOB" "2024-01-05 10:00:00" (some "x")
    ⟨2, "Bob", "2024-01-02 10:00:00", none⟩ (by decide) (by decide) (by decide)
    (by decide)

/-- C6 counterexample: with only record id 1 present, `delete_records
[1, 2]` silently deletes record 1 alone — id 2 matches nothing — and
still reports the operation as handled by returning `True`. -/
theorem delete_records_deletes_existing_alone :
    get_record_by_id dbAlice 1 = some ⟨1, "Alice", "2024-01-01 10:00:00", none⟩ ∧
    get_record_by_id dbAlice 2 = none ∧
    delete_records dbAlice [1, 2] = (true, ⟨[], 2⟩) := by
  decide

/-- C6 (amended): a delete with a non-empty id set returns `True` and
removes exactly the rows whose id is requested; ids matching no record
are silently ignored rather than aborting the whole deletion. -/
theorem delete_records_removes_requested (db : DB) (ids : List Nat) (r : Record)
    (h : ids ≠ []) :
    (delete_records db ids).1 = true ∧
    (r ∈ (delete_records db ids).2.rows ↔ r ∈ db.rows ∧ r.id ∉ ids) := by
  have he : ids.isEmpty = false := by
    simp [List.isEmpty_iff, h]
  constructor
  · simp [delete_records, he]
  · simp [delete_records, he, List.mem_filter]

/-- Instantiation of C6 (amended) at the state where only id 1 exists. -/
theorem delete_records_removes_requested_witness :
    (delete_records dbAlice [1, 2]).1 = true ∧
    ((⟨1, "Alice", "2024-01-01 10:00:00", none⟩ : Record) ∈
        (delete_records dbAlice [1, 2]).2.rows ↔
      (⟨1, "Alice", "2024-01-01 10:00:00", none⟩ : Record) ∈ dbAlice.rows ∧
        (1 : Nat) ∉ [1, 2]) :=
  delete_records_removes_requested dbAlice [1, 2]
    ⟨1, "Alice", "2024-01-01 10:00:00", none⟩ (by decide)

/-- C10: an update aimed at an id that matches no record still returns
`True` — the UPDATE statement simply affects zero rows — and leaves the
store unchanged. -/
theorem update_record_missing_id (db : DB) (i : Nat) (nm d : String)
    (rm : Option String) (h : ∀ r ∈ db.rows, r.id ≠ i) :
    update_record db i nm d rm = (true, db) := by
  have h1 : db.rows.any (fun r => r.id == i) = false := by
    rw [List.any_eq_false]
    intro r hr
    simp [h r hr]
  have heach : ∀ r ∈ db.rows,
      (if r.id = i then (⟨r.id, strip nm, d, rm⟩ : Record) else r) = id r :=
    fun r hr => if_neg (h r hr)
  have hmap : db.rows.map
      (fun r => if r.id = i then (⟨r.id, strip nm, d, rm⟩ : Record) else r) = db.rows := by
    rw [List.map_congr_left heach, List.map_id]
  simp [update_record, h1, hmap]

/-- Instantiation of C10: updating the absent id 5 returns `True` without
changing anything. -/
theorem update_record_missing_id_witness :
    update_record dbAlice 5 "Zed" "2024-01-09 10:00:00" none = (true, dbAlice) :=
  update_record_missing_id dbAlice 5 "Zed" "2024-01-09 10:00:00" none (by decide)

theorem likeMatch_percent (s : List Char) : likeMatch ['%'] s = true := by
  simp [likeMatch]

theorem likeMatch_two_percents (s : List Char) : likeMatch ['%', '%'] s = true := by
  simp [likeMatch, likeMatch_percent]
  exact ⟨[], List.nil_suffix⟩

/-- C8: searching for the empty string returns exactly the same sequence
of records, in the same order, as reading all records. -/
theorem search_empty_eq_get_all (db : DB) :
    search_records db "" = get_all_records db := by
  unfold search_records get_all_records
  congr 1
  rw [List.filter_eq_self]
  intro r _
  exact likeMatch_two_percents r.name.data

/-- C9: both `get_all_records` and `search_records` return rows sorted by
`add_date` in descending order; rows with equal dates may come in any
relative order, which the non-strict inequality permits. -/
theorem results_sorted_by_date_desc (db : DB) (q : String) :
    (get_all_records db).Pairwise (fun a b => b.add_date ≤ a.add_date) ∧
    (search_records db q).Pairwise (fun a b => b.add_date ≤ a.add_date) :=
  ⟨List.sorted_insertionSort byDateDesc db.rows,
    List.sorted_insertionSort byDateDesc _⟩

theorem likeMatch_wild_eq (ps s : List Char) :
    likeMatch ('%' :: ps) s = s.tails.any (fun t => likeMatch ps t) := rfl

theorem likeMatch_wild {ps s : List Char} :
    likeMatch ('%' :: ps) s = true ↔ ∃ t, t <:+ s ∧ likeMatch ps t = true := by
  rw [likeMatch_wild_eq, List.any_eq_true]
  constructor
  · rintro ⟨t, ht, h⟩
    exact ⟨t, (List.mem_tails _ _).1 ht, h⟩
  · rintro ⟨t, ht, h⟩
    exact ⟨t, (List.mem_tails _ _).2 ht, h⟩

theorem likeMatch_lit_percent : ∀ q : List Char, (∀ c ∈ q, c ≠ '%' ∧ c ≠ '_') →
    ∀ s : List Char, (likeMatch (q ++ ['%']) s = true ↔
      ∃ p, p <+: s ∧ p.map nocase = q.map nocase) := by
  intro q
  induction q with
  | nil =>
    intro _ s
    constructor
    · intro _
      exact ⟨[], List.nil_prefix, rfl⟩
    · intro _
      exact likeMatch_percent s
  | cons c q ih =>
    intro hq s
    obtain ⟨hc1, hc2⟩ := hq c (List.mem_cons_self _ _)
    have hq' : ∀ x ∈ q, x ≠ '%' ∧ x ≠ '_' :=
      fun x hx => hq x (List.mem_cons_of_mem _ hx)
    cases s with
    | nil =>
      have hL : likeMatch ((c :: q) ++ ['%']) [] = false := by
        simp [likeMatch, hc1]
      rw [hL]
      constructor
      · intro h
        cases h
      · rintro ⟨p, hp, hmap⟩
        rw [List.prefix_nil] at hp
        subst hp
        simp at hmap
    | cons a s' =>
      have hL : likeMatch ((c :: q) ++ ['%']) (a :: s') =
          (nocase c == nocase a && likeMatch (q ++ ['%']) s') := by
        simp [likeMatch, hc1, hc2]
      rw [hL, Bool.and_eq_true, beq_iff_eq, ih hq' s']
      constructor
      · rintro ⟨hca, p', hp', hmp'⟩
        refine ⟨a :: p', List.cons_prefix_cons.2 ⟨rfl, hp'⟩, ?_⟩
        simp [hmp', hca]
      · rintro ⟨p, hp, hmp⟩
        cases p with
        | nil => simp at hmp
        | cons x p' =>
          obtain ⟨hxa, hp'⟩ := List.cons_prefix_cons.1 hp
          subst hxa
          simp only [List.map_cons, List.cons.injEq] at hmp
          exact ⟨hmp.1.symm, p', hp', hmp.2⟩

theorem likeMatch_pattern_iff_infix (q : List Char)
    (hq : ∀ c ∈ q, c ≠ '%' ∧ c ≠ '_') (s : List Char) :
    likeMatch ('%' :: (q ++ ['%'])) s = true ↔
      (q.map nocase) <:+: (s.map nocase) := by
  rw [likeMatch_wild]
  constructor
  · rintro ⟨t, ht, hmatch⟩
    obtain ⟨p, hp, hmap⟩ := (likeMatch_lit_percent q hq t).1 hmatch
    have h1 : p <:+: s := List.infix_iff_prefix_suffix.2 ⟨t, hp, ht⟩
    have h2 := h1.map nocase
    exact hmap ▸ h2
  · intro h
    obtain ⟨u, v, huv⟩ := h
    have h1 : s.map nocase = u ++ (q.map nocase ++ v) := by
      rw [← huv, List.append_assoc]
    obtain ⟨s1, s2, hs, _hu, hs2⟩ := List.map_eq_append_iff.1 h1
    obtain ⟨s3, s4, hs', hs3, _hv⟩ := List.map_eq_append_iff.1 hs2
    refine ⟨s2, ?_, (likeMatch_lit_percent q hq s2).2 ⟨s3, ?_, hs3⟩⟩
    · rw [hs]
      exact List.suffix_append s1 s2
    · rw [hs']
      exact List.prefix_append s3 s4

/-- C7 counterexample: the query "a_" is not a literal case-insensitive
substring of the stored name "ab", yet search returns that row — the
underscore acts as a LIKE wildcard matching any single character, not as
a literal. -/
theorem search_records_wildcard_counterexample :
    search_records dbAb "a_" = [⟨1, "ab", "2024-01-01 10:00:00", none⟩] ∧
    ¬ substrNocase "a_" "ab" := by
  constructor
  · decide
  · decide

/-- C7 (amended): search(q) returns exactly the records whose name
matches the SQL LIKE pattern `%q%` case-insensitively, in which a
percent sign or underscore inside q acts as a wildcard; whenever q
contains neither wildcard character — in particular for the empty
string, which matches all records — this coincides with case-insensitive
literal substring matching on the name. -/
theorem search_records_literal (db : DB) (q : String) (r : Record)
    (hq : ∀ c ∈ q.data, c ≠ '%' ∧ c ≠ '_') :
    r ∈ search_records db q ↔ r ∈ db.rows ∧ substrNocase q r.name := by
  unfold search_records orderByDateDesc
  rw [List.mem_insertionSort, List.mem_filter,
    likeMatch_pattern_iff_infix q.data hq r.name.data]
  exact Iff.rfl

/-- Instantiation of C7 (amended): searching "AB" finds the stored name
"abcdef". -/
theorem search_records_literal_witness :
    ((⟨1, "abcdef", "2024-01-01 10:00:00", none⟩ : Record) ∈
        search_records dbAbcdef "AB" ↔
      (⟨1, "abcdef", "2024-01-01 10:00:00", none⟩ : Record) ∈ dbAbcdef.rows ∧
        substrNocase "AB" "abcdef") :=
  search_records_literal dbAbcdef "AB" ⟨1, "abcdef", "2024-01-01 10:00:00", none⟩
    (by decide)

end RecordStore
